import Mathlib

/-!
# Verification of the KV6 voxel-model codec

Shallow embedding of `src/kv6.rs`: the `KV6Format` and `VoxelData` structures
and their `TryFromCtx` (decode) / `TryIntoCtx` (encode) implementations over a
byte buffer with an explicit cursor, in the style of the `scroll` crate.

Modelling conventions:
* Byte buffers are `List Nat` (each element one byte).
* Machine integers (`u8`, `u16`, `u32`) are `Nat`; where the source truncates
  (the `as u32` cast on `voxels.len()`), the model reduces modulo `2^32`.
* `f32` pivot fields are carried as their 32-bit patterns (`Nat`); the codec
  only reinterprets bytes and never does float arithmetic.
* Fallible reads return `Except ScrollError`, with the error taxonomy of the
  specification: `truncatedInput` for any read past the end of the buffer
  (scroll's `TooBig`/`BadOffset`), `arithmeticOverflow` for the declared
  overflow condition.
* The repetition macros `try_gread_vec_with!` / `try_gwrite_vec_with!` are
  declared in the crate root, which is not part of the sources. Modelled from
  the spec: "Read exactly `voxel_count` Voxel Records sequentially via the
  Voxel Record Codec, accumulating consumed bytes" — `readN` below reads the
  element reader exactly `n` times in sequence, propagating the first error;
  the write macro writes every element in sequence.
-/

/-- Endianness context (`scroll::Endian`). -/
inductive Endian : Type
  | le : Endian
  | be : Endian
  deriving DecidableEq

/-- Error kinds of the codec, per the specification's taxonomy
(`TruncatedInput` covers scroll's out-of-bounds read errors). -/
inductive ScrollError : Type
  | truncatedInput : ScrollError
  | arithmeticOverflow : ScrollError
  deriving DecidableEq

/-- One colored voxel entry (`struct VoxelData` in `kv6.rs`).
All fields are `u8` except `height : u16`; carried as `Nat`. -/
structure VoxelData : Type where
  red : Nat
  green : Nat
  blue : Nat
  dummy : Nat
  height : Nat
  visibility : Nat
  normalindex : Nat
  deriving DecidableEq

/-- The whole decoded model (`struct KV6Format` in `kv6.rs`).
`u32` fields carried as `Nat`; pivots are the `f32` bit patterns. -/
structure KV6Format : Type where
  magic : Nat
  x_size : Nat
  y_size : Nat
  z_size : Nat
  x_pivot : Nat
  y_pivot : Nat
  z_pivot : Nat
  voxels : List VoxelData
  xlen : List Nat
  ylen : List (List Nat)
  deriving DecidableEq

/-- A byte-cursor reader: given the source buffer and the current offset,
either fail or return a value together with the updated offset
(scroll's `gread_with` discipline: the offset only ever moves forward). -/
def Reader (α : Type) : Type :=
  List Nat → Nat → Except ScrollError (α × Nat)

/-- Reader that returns a value without consuming input. -/
def rpure {α : Type} (a : α) : Reader α :=
  fun _ off => .ok (a, off)

/-- Sequencing of readers: run `R`, then feed its value to `f`, threading the
cursor (models consecutive `gread_with` calls through `?`). -/
def rbind {α β : Type} (R : Reader α) (f : α → Reader β) : Reader β :=
  fun src off =>
    match R src off with
    | .error e => .error e
    | .ok (a, off1) => f a src off1

/-- Primitive read of `n` raw bytes at the cursor; fails with `truncatedInput`
when fewer than `n` bytes remain (scroll's bounds check). -/
def readBytesR (n : Nat) : Reader (List Nat) :=
  fun src off =>
    if off + n ≤ src.length then .ok ((src.drop off).take n, off + n)
    else .error .truncatedInput

/-- Value of a little-endian byte string (least significant byte first). -/
def bytesToNatLE : List Nat → Nat
  | [] => 0
  | b :: bs => b + 256 * bytesToNatLE bs

/-- Integer value of a byte string under an endianness context. -/
def valWith : Endian → List Nat → Nat
  | .le, bs => bytesToNatLE bs
  | .be, bs => bytesToNatLE bs.reverse

/-- Read an `n`-byte unsigned integer under endianness `e`
(scroll's `gread_with` for `u8`/`u16`/`u32`, and for the `f32` bit pattern). -/
def readWord (n : Nat) (e : Endian) : Reader Nat :=
  rbind (readBytesR n) (fun bs => rpure (valWith e bs))

/-- Little-endian byte string of length `n` for `x` (wraps modulo `256 ^ n`). -/
def leBytes : Nat → Nat → List Nat
  | 0, _ => []
  | k + 1, x => x % 256 :: leBytes k (x / 256)

/-- `n`-byte encoding of `x` under endianness `e`
(scroll's `gwrite_with` for unsigned integers / `f32` bit patterns). -/
def wordBytes (n : Nat) (e : Endian) (x : Nat) : List Nat :=
  match e with
  | .le => leBytes n x
  | .be => (leBytes n x).reverse

/-- Decode of one voxel record: `VoxelData::try_from_ctx` in `kv6.rs`.
`red` is read `BE`, `height` is read `LE`, every other field follows the
caller's context — exactly the source's `gread_with` sequence. -/
def VoxelData.tryFromCtx (e : Endian) : Reader VoxelData :=
  rbind (readWord 1 .be) fun red =>
  rbind (readWord 1 e) fun green =>
  rbind (readWord 1 e) fun blue =>
  rbind (readWord 1 e) fun dummy =>
  rbind (readWord 2 .le) fun height =>
  rbind (readWord 1 e) fun visibility =>
  rbind (readWord 1 e) fun normalindex =>
  rpure ⟨red, green, blue, dummy, height, visibility, normalindex⟩

/-- Read exactly `n` elements with `R`, in sequence. Modelled from the spec:
the crate-root macro `try_gread_vec_with!` is not among the sources; the spec
describes it as "read `N`, then read exactly `N` elements" sequentially,
propagating the element reader's error. -/
def readN {α : Type} (R : Reader α) : Nat → Reader (List α)
  | 0 => rpure []
  | n + 1 =>
    rbind R fun a =>
    rbind (readN R n) fun as =>
    rpure (a :: as)

/-- Decode of the whole model: `KV6Format::try_from_ctx` in `kv6.rs`.
Magic is read `BE`; sizes, pivots and `num_voxels` follow the context; then
`num_voxels` voxel records and `x_size` entries of `xlen` are read; `ylen` is
stubbed to the empty structure (`Default::default()` in the source). -/
def KV6Format.tryFromCtx (e : Endian) : Reader KV6Format :=
  rbind (readWord 4 .be) fun magic =>
  rbind (readWord 4 e) fun x_size =>
  rbind (readWord 4 e) fun y_size =>
  rbind (readWord 4 e) fun z_size =>
  rbind (readWord 4 e) fun x_pivot =>
  rbind (readWord 4 e) fun y_pivot =>
  rbind (readWord 4 e) fun z_pivot =>
  rbind (readWord 4 e) fun num_voxels =>
  rbind (readN (VoxelData.tryFromCtx e) num_voxels) fun voxels =>
  rbind (readN (readWord 4 e) x_size) fun xlen =>
  rpure ⟨magic, x_size, y_size, z_size, x_pivot, y_pivot, z_pivot, voxels, xlen, []⟩

/-- Byte string written by `VoxelData::try_into_ctx` in `kv6.rs`:
`red` `BE`, `height` `LE`, the rest under the context, in source order. -/
def VoxelData.writeBytes (e : Endian) (v : VoxelData) : List Nat :=
  wordBytes 1 .be v.red ++ wordBytes 1 e v.green ++ wordBytes 1 e v.blue ++
  wordBytes 1 e v.dummy ++ wordBytes 2 .le v.height ++
  wordBytes 1 e v.visibility ++ wordBytes 1 e v.normalindex

/-- Byte string written by `KV6Format::try_into_ctx` in `kv6.rs`: magic `BE`,
sizes and pivots under the context, then `voxels.len() as u32` (the truncating
cast is the `mod 2^32` inherent in the 4-byte encoding), every voxel record,
and every `xlen` entry. `ylen` is not written (the `TODO` in the source). -/
def KV6Format.writeBytes (e : Endian) (m : KV6Format) : List Nat :=
  wordBytes 4 .be m.magic ++ wordBytes 4 e m.x_size ++ wordBytes 4 e m.y_size ++
  wordBytes 4 e m.z_size ++ wordBytes 4 e m.x_pivot ++ wordBytes 4 e m.y_pivot ++
  wordBytes 4 e m.z_pivot ++ wordBytes 4 e m.voxels.length ++
  (m.voxels.map (VoxelData.writeBytes e)).flatten ++
  (m.xlen.map (wordBytes 4 e)).flatten

/-- `KV6Format::try_into_ctx` proper: writing into a destination buffer of
length `cap` returns the number of bytes written, and fails (scroll's
out-of-space error) when the buffer cannot hold the encoding. -/
def KV6Format.tryIntoCtx (e : Endian) (m : KV6Format) (cap : Nat) : Except ScrollError Nat :=
  if (KV6Format.writeBytes e m).length ≤ cap then .ok (KV6Format.writeBytes e m).length
  else .error .truncatedInput

/-- Range invariants of a voxel record's value domain (Rust's `u8`/`u16`
field types). -/
def VoxelData.wf (v : VoxelData) : Prop :=
  v.red < 256 ∧ v.green < 256 ∧ v.blue < 256 ∧ v.dummy < 256 ∧
  v.height < 65536 ∧ v.visibility < 256 ∧ v.normalindex < 256

instance (v : VoxelData) : Decidable v.wf := by
  unfold VoxelData.wf
  infer_instance

/-- Range invariants of the model's value domain (Rust's `u32` field types,
`f32` bit patterns, a voxel list addressable by a `u32` count, in-range
voxel records and `xlen` entries). -/
def KV6Format.wf (m : KV6Format) : Prop :=
  m.magic < 4294967296 ∧ m.x_size < 4294967296 ∧ m.y_size < 4294967296 ∧
  m.z_size < 4294967296 ∧ m.x_pivot < 4294967296 ∧ m.y_pivot < 4294967296 ∧
  m.z_pivot < 4294967296 ∧ m.voxels.length < 4294967296 ∧
  (∀ v ∈ m.voxels, v.wf) ∧ (∀ x ∈ m.xlen, x < 4294967296)

instance (m : KV6Format) : Decidable m.wf := by
  unfold KV6Format.wf
  infer_instance

example : bytesToNatLE [108, 120, 118, 75] = 0x4b76786c := by decide

example :
    KV6Format.tryFromCtx .le (List.replicate 32 0) 0 =
      .ok (⟨0, 0, 0, 0, 0, 0, 0, [], [], []⟩, 32) := by rfl

/-! ## Basic reduction lemmas for the reader combinators -/

theorem rbind_ok {α β : Type} {R : Reader α} {f : α → Reader β} {src : List Nat}
    {off off1 : Nat} {a : α} (h : R src off = .ok (a, off1)) :
    rbind R f src off = f a src off1 := by
  unfold rbind
  rw [h]

theorem rbind_err {α β : Type} {R : Reader α} {f : α → Reader β} {src : List Nat}
    {off : Nat} {e : ScrollError} (h : R src off = .error e) :
    rbind R f src off = .error e := by
  unfold rbind
  rw [h]

theorem readBytesR_pos {n : Nat} {src : List Nat} {off : Nat}
    (h : off + n ≤ src.length) :
    readBytesR n src off = .ok ((src.drop off).take n, off + n) := by
  unfold readBytesR
  rw [if_pos h]

theorem readBytesR_neg {n : Nat} {src : List Nat} {off : Nat}
    (h : src.length < off + n) :
    readBytesR n src off = .error .truncatedInput := by
  unfold readBytesR
  rw [if_neg (by omega)]

theorem readWord_pos {n : Nat} {e : Endian} {src : List Nat} {off : Nat}
    (h : off + n ≤ src.length) :
    readWord n e src off = .ok (valWith e ((src.drop off).take n), off + n) := by
  unfold readWord
  rw [rbind_ok (readBytesR_pos h)]
  rfl

theorem readWord_neg {n : Nat} {e : Endian} {src : List Nat} {off : Nat}
    (h : src.length < off + n) :
    readWord n e src off = .error .truncatedInput := by
  unfold readWord
  rw [rbind_err (readBytesR_neg h)]

theorem readWord_err {n : Nat} {e : Endian} {src : List Nat} {off : Nat}
    {err : ScrollError} (h : readWord n e src off = .error err) :
    err = .truncatedInput := by
  by_cases hl : off + n ≤ src.length
  · rw [readWord_pos hl] at h
    exact Except.noConfusion h
  · rw [readWord_neg (by omega)] at h
    exact (Except.error.inj h).symm

theorem leBytes_length (n x : Nat) : (leBytes n x).length = n := by
  induction n generalizing x with
  | zero => rfl
  | succ k ih => simp [leBytes, ih]

theorem wordBytes_length (n : Nat) (e : Endian) (x : Nat) :
    (wordBytes n e x).length = n := by
  cases e <;> simp [wordBytes, leBytes_length]

theorem bytesToNatLE_leBytes (n x : Nat) :
    bytesToNatLE (leBytes n x) = x % 256 ^ n := by
  induction n generalizing x with
  | zero => simp [leBytes, bytesToNatLE, Nat.mod_one]
  | succ k ih =>
    have hp : (256 : Nat) ^ (k + 1) = 256 * 256 ^ k := by ring
    rw [leBytes, bytesToNatLE, ih, hp, Nat.mod_mul]

theorem valWith_wordBytes (n : Nat) (e : Endian) (x : Nat) :
    valWith e (wordBytes n e x) = x % 256 ^ n := by
  cases e with
  | le => exact bytesToNatLE_leBytes n x
  | be => simp [valWith, wordBytes, bytesToNatLE_leBytes]

theorem wordBytes_one (e : Endian) (x : Nat) : wordBytes 1 e x = [x % 256] := by
  cases e <;> rfl

/-! ## Structural properties of readers -/

theorem slice_take {src : List Nat} {off n k : Nat} (h : off + n ≤ k) :
    ((src.take k).drop off).take n = (src.drop off).take n := by
  rw [List.drop_take, List.take_take]
  congr 1
  omega

/-- `R` always advances the cursor by exactly `k` bytes on success. -/
def Advances {α : Type} (R : Reader α) (k : Nat) : Prop :=
  ∀ src off a off1, R src off = .ok (a, off1) → off1 = off + k

theorem adv_rpure {α : Type} (a : α) : Advances (rpure a) 0 := by
  intro src off b off1 h
  unfold rpure at h
  cases h
  rfl

theorem adv_rbind {α β : Type} {R : Reader α} {f : α → Reader β} {j k : Nat}
    (h1 : Advances R j) (h2 : ∀ a, Advances (f a) k) :
    Advances (rbind R f) (j + k) := by
  intro src off b off2 h
  cases hR : R src off with
  | error e =>
    rw [rbind_err hR] at h
    exact Except.noConfusion h
  | ok p =>
    obtain ⟨a, off1⟩ := p
    rw [rbind_ok hR] at h
    have e1 := h1 src off a off1 hR
    have e2 := h2 a src off1 b off2 h
    omega

theorem adv_readBytesR (n : Nat) : Advances (readBytesR n) n := by
  intro src off a off1 h
  unfold readBytesR at h
  split at h
  · cases h
    rfl
  · exact Except.noConfusion h

theorem adv_readWord (n : Nat) (e : Endian) : Advances (readWord n e) n := by
  have := adv_rbind (adv_readBytesR n) (fun bs => adv_rpure (valWith e bs))
  simpa using this

theorem adv_voxel (e : Endian) : Advances (VoxelData.tryFromCtx e) 8 := by
  unfold VoxelData.tryFromCtx
  have h :=
    adv_rbind (adv_readWord 1 .be) (fun red =>
      adv_rbind (adv_readWord 1 e) (fun green =>
        adv_rbind (adv_readWord 1 e) (fun blue =>
          adv_rbind (adv_readWord 1 e) (fun dummy =>
            adv_rbind (adv_readWord 2 .le) (fun height =>
              adv_rbind (adv_readWord 1 e) (fun visibility =>
                adv_rbind (adv_readWord 1 e) (fun normalindex =>
                  adv_rpure (⟨red, green, blue, dummy, height, visibility,
                    normalindex⟩ : VoxelData))))))))
  simpa using h

theorem readN_ok_parts {α : Type} {R : Reader α} {k : Nat} (hR : Advances R k) :
    ∀ c src off l off1, readN R c src off = .ok (l, off1) →
      off1 = off + c * k ∧ l.length = c := by
  intro c
  induction c with
  | zero =>
    intro src off l off1 h
    unfold readN rpure at h
    cases h
    simp
  | succ n ih =>
    intro src off l off1 h
    unfold readN at h
    cases hA : R src off with
    | error e =>
      rw [rbind_err hA] at h
      exact Except.noConfusion h
    | ok p =>
      obtain ⟨a, o1⟩ := p
      rw [rbind_ok hA] at h
      cases hN : readN R n src o1 with
      | error e =>
        rw [rbind_err hN] at h
        exact Except.noConfusion h
      | ok q =>
        obtain ⟨as, o2⟩ := q
        rw [rbind_ok hN] at h
        unfold rpure at h
        cases h
        have e1 := hR src off a o1 hA
        obtain ⟨e2, e3⟩ := ih src o1 as off1 hN
        constructor
        · rw [Nat.succ_mul]
          omega
        · simp [e3]

/-- `R` never reports `arithmeticOverflow`. -/
def NoOverflow {α : Type} (R : Reader α) : Prop :=
  ∀ src off, R src off ≠ .error .arithmeticOverflow

theorem noov_rpure {α : Type} (a : α) : NoOverflow (rpure a) := by
  intro src off h
  exact Except.noConfusion h

theorem noov_rbind {α β : Type} {R : Reader α} {f : α → Reader β}
    (h1 : NoOverflow R) (h2 : ∀ a, NoOverflow (f a)) : NoOverflow (rbind R f) := by
  intro src off h
  cases hR : R src off with
  | error e =>
    rw [rbind_err hR] at h
    cases Except.error.inj h
    exact h1 src off hR
  | ok p =>
    obtain ⟨a, off1⟩ := p
    rw [rbind_ok hR] at h
    exact h2 a src off1 h

theorem noov_readBytesR (n : Nat) : NoOverflow (readBytesR n) := by
  intro src off h
  unfold readBytesR at h
  split at h
  · exact Except.noConfusion h
  · cases Except.error.inj h

theorem noov_readWord (n : Nat) (e : Endian) : NoOverflow (readWord n e) :=
  noov_rbind (noov_readBytesR n) (fun bs => noov_rpure (valWith e bs))

theorem noov_readN {α : Type} {R : Reader α} (h : NoOverflow R) :
    ∀ c, NoOverflow (readN R c) := by
  intro c
  induction c with
  | zero => exact noov_rpure []
  | succ n ih =>
    exact noov_rbind h (fun a => noov_rbind ih (fun as => noov_rpure (a :: as)))

theorem noov_voxel (e : Endian) : NoOverflow (VoxelData.tryFromCtx e) :=
  noov_rbind (noov_readWord 1 .be) (fun red =>
    noov_rbind (noov_readWord 1 e) (fun green =>
      noov_rbind (noov_readWord 1 e) (fun blue =>
        noov_rbind (noov_readWord 1 e) (fun dummy =>
          noov_rbind (noov_readWord 2 .le) (fun height =>
            noov_rbind (noov_readWord 1 e) (fun visibility =>
              noov_rbind (noov_readWord 1 e) (fun normalindex =>
                noov_rpure ⟨red, green, blue, dummy, height, visibility,
                  normalindex⟩)))))))

theorem noov_kv6 (e : Endian) : NoOverflow (KV6Format.tryFromCtx e) :=
  noov_rbind (noov_readWord 4 .be) (fun magic =>
    noov_rbind (noov_readWord 4 e) (fun x_size =>
      noov_rbind (noov_readWord 4 e) (fun y_size =>
        noov_rbind (noov_readWord 4 e) (fun z_size =>
          noov_rbind (noov_readWord 4 e) (fun x_pivot =>
            noov_rbind (noov_readWord 4 e) (fun y_pivot =>
              noov_rbind (noov_readWord 4 e) (fun z_pivot =>
                noov_rbind (noov_readWord 4 e) (fun num_voxels =>
                  noov_rbind (noov_readN (noov_voxel e) num_voxels) (fun voxels =>
                    noov_rbind (noov_readN (noov_readWord 4 e) x_size) (fun xlen =>
                      noov_rpure ⟨magic, x_size, y_size, z_size, x_pivot, y_pivot,
                        z_pivot, voxels, xlen, []⟩))))))))))

/-- Truncation safety: whenever `R` succeeds reading bytes `[off, off1)`, then
on any shortened copy of the buffer it fails with `truncatedInput` if the cut
falls before `off1`, and returns the identical result otherwise. -/
def TruncSafe {α : Type} (R : Reader α) : Prop :=
  ∀ src off a off1, R src off = .ok (a, off1) →
    off ≤ off1 ∧
    ∀ k, off ≤ k →
      (k < off1 → R (src.take k) off = .error .truncatedInput) ∧
      (off1 ≤ k → R (src.take k) off = .ok (a, off1))

theorem trunc_rpure {α : Type} (a : α) : TruncSafe (rpure a) := by
  intro src off b off1 h
  unfold rpure at h
  cases h
  refine ⟨Nat.le_refl off, fun k hk => ⟨fun hlt => absurd hlt (by omega), fun _ => rfl⟩⟩

theorem trunc_rbind {α β : Type} {R : Reader α} {f : α → Reader β}
    (h1 : TruncSafe R) (h2 : ∀ a, TruncSafe (f a)) : TruncSafe (rbind R f) := by
  intro src off b off2 h
  cases hR : R src off with
  | error e =>
    rw [rbind_err hR] at h
    exact Except.noConfusion h
  | ok p =>
    obtain ⟨a, o1⟩ := p
    rw [rbind_ok hR] at h
    obtain ⟨hle1, hcl1⟩ := h1 src off a o1 hR
    obtain ⟨hle2, hcl2⟩ := h2 a src o1 b off2 h
    refine ⟨by omega, fun k hk => ⟨?_, ?_⟩⟩
    · intro hlt
      by_cases hko : k < o1
      · rw [rbind_err ((hcl1 k hk).1 hko)]
      · rw [rbind_ok ((hcl1 k hk).2 (by omega))]
        exact (hcl2 k (by omega)).1 hlt
    · intro hge
      rw [rbind_ok ((hcl1 k hk).2 (by omega))]
      exact (hcl2 k (by omega)).2 hge

theorem trunc_readBytesR (n : Nat) : TruncSafe (readBytesR n) := by
  intro src off a off1 h
  unfold readBytesR at h
  split at h
  case isTrue hc =>
    cases h
    refine ⟨by omega, fun k hk => ⟨?_, ?_⟩⟩
    · intro hlt
      unfold readBytesR
      rw [if_neg (by simp only [List.length_take]; omega)]
    · intro hge
      unfold readBytesR
      rw [if_pos (by simp only [List.length_take]; omega), slice_take hge]
  case isFalse => exact Except.noConfusion h

theorem trunc_readWord (n : Nat) (e : Endian) : TruncSafe (readWord n e) :=
  trunc_rbind (trunc_readBytesR n) (fun bs => trunc_rpure (valWith e bs))

theorem trunc_readN {α : Type} {R : Reader α} (h : TruncSafe R) :
    ∀ c, TruncSafe (readN R c) := by
  intro c
  induction c with
  | zero => exact trunc_rpure []
  | succ n ih =>
    exact trunc_rbind h (fun a => trunc_rbind ih (fun as => trunc_rpure (a :: as)))

theorem trunc_voxel (e : Endian) : TruncSafe (VoxelData.tryFromCtx e) :=
  trunc_rbind (trunc_readWord 1 .be) (fun red =>
    trunc_rbind (trunc_readWord 1 e) (fun green =>
      trunc_rbind (trunc_readWord 1 e) (fun blue =>
        trunc_rbind (trunc_readWord 1 e) (fun dummy =>
          trunc_rbind (trunc_readWord 2 .le) (fun height =>
            trunc_rbind (trunc_readWord 1 e) (fun visibility =>
              trunc_rbind (trunc_readWord 1 e) (fun normalindex =>
                trunc_rpure ⟨red, green, blue, dummy, height, visibility,
                  normalindex⟩)))))))

theorem trunc_kv6 (e : Endian) : TruncSafe (KV6Format.tryFromCtx e) :=
  trunc_rbind (trunc_readWord 4 .be) (fun magic =>
    trunc_rbind (trunc_readWord 4 e) (fun x_size =>
      trunc_rbind (trunc_readWord 4 e) (fun y_size =>
        trunc_rbind (trunc_readWord 4 e) (fun z_size =>
          trunc_rbind (trunc_readWord 4 e) (fun x_pivot =>
            trunc_rbind (trunc_readWord 4 e) (fun y_pivot =>
              trunc_rbind (trunc_readWord 4 e) (fun z_pivot =>
                trunc_rbind (trunc_readWord 4 e) (fun num_voxels =>
                  trunc_rbind (trunc_readN (trunc_voxel e) num_voxels) (fun voxels =>
                    trunc_rbind (trunc_readN (trunc_readWord 4 e) x_size) (fun xlen =>
                      trunc_rpure ⟨magic, x_size, y_size, z_size, x_pivot, y_pivot,
                        z_pivot, voxels, xlen, []⟩))))))))))

/-- Extension safety: a successful read from a truncated copy of a buffer
gives the same result on the whole buffer — bytes past the consumed region
are never inspected. -/
def GrowSafe {α : Type} (R : Reader α) : Prop :=
  ∀ src k off a off1, R (src.take k) off = .ok (a, off1) → R src off = .ok (a, off1)

theorem grow_rpure {α : Type} (a : α) : GrowSafe (rpure a) := by
  intro src k off b off1 h
  exact h

theorem grow_rbind {α β : Type} {R : Reader α} {f : α → Reader β}
    (g1 : GrowSafe R) (g2 : ∀ a, GrowSafe (f a)) : GrowSafe (rbind R f) := by
  intro src k off b off1 h
  cases hR : R (src.take k) off with
  | error e =>
    rw [rbind_err hR] at h
    exact Except.noConfusion h
  | ok p =>
    obtain ⟨a, o1⟩ := p
    rw [rbind_ok hR] at h
    rw [rbind_ok (g1 src k off a o1 hR)]
    exact g2 a src k o1 b off1 h

theorem grow_readBytesR (n : Nat) : GrowSafe (readBytesR n) := by
  intro src k off a off1 h
  unfold readBytesR at h
  split at h
  case isTrue hc =>
    cases h
    rw [List.length_take] at hc
    unfold readBytesR
    rw [if_pos (by omega), slice_take (by omega)]
  case isFalse => exact Except.noConfusion h

theorem grow_readWord (n : Nat) (e : Endian) : GrowSafe (readWord n e) :=
  grow_rbind (grow_readBytesR n) (fun bs => grow_rpure (valWith e bs))

theorem grow_readN {α : Type} {R : Reader α} (h : GrowSafe R) :
    ∀ c, GrowSafe (readN R c) := by
  intro c
  induction c with
  | zero => exact grow_rpure []
  | succ n ih =>
    exact grow_rbind h (fun a => grow_rbind ih (fun as => grow_rpure (a :: as)))

theorem grow_voxel (e : Endian) : GrowSafe (VoxelData.tryFromCtx e) :=
  grow_rbind (grow_readWord 1 .be) (fun red =>
    grow_rbind (grow_readWord 1 e) (fun green =>
      grow_rbind (grow_readWord 1 e) (fun blue =>
        grow_rbind (grow_readWord 1 e) (fun dummy =>
          grow_rbind (grow_readWord 2 .le) (fun height =>
            grow_rbind (grow_readWord 1 e) (fun visibility =>
              grow_rbind (grow_readWord 1 e) (fun normalindex =>
                grow_rpure ⟨red, green, blue, dummy, height, visibility,
                  normalindex⟩)))))))

theorem grow_kv6 (e : Endian) : GrowSafe (KV6Format.tryFromCtx e) :=
  grow_rbind (grow_readWord 4 .be) (fun magic =>
    grow_rbind (grow_readWord 4 e) (fun x_size =>
      grow_rbind (grow_readWord 4 e) (fun y_size =>
        grow_rbind (grow_readWord 4 e) (fun z_size =>
          grow_rbind (grow_readWord 4 e) (fun x_pivot =>
            grow_rbind (grow_readWord 4 e) (fun y_pivot =>
              grow_rbind (grow_readWord 4 e) (fun z_pivot =>
                grow_rbind (grow_readWord 4 e) (fun num_voxels =>
                  grow_rbind (grow_readN (grow_voxel e) num_voxels) (fun voxels =>
                    grow_rbind (grow_readN (grow_readWord 4 e) x_size) (fun xlen =>
                      grow_rpure ⟨magic, x_size, y_size, z_size, x_pivot, y_pivot,
                        z_pivot, voxels, xlen, []⟩))))))))))

/-- `R` parses the byte string `bs` to the value `a`: positioned at the start
of `bs` inside any surrounding buffer, it succeeds with `a` and consumes
exactly `bs`. -/
def Parses {α : Type} (R : Reader α) (bs : List Nat) (a : α) : Prop :=
  ∀ pre rest, R (pre ++ (bs ++ rest)) pre.length = .ok (a, pre.length + bs.length)

theorem parses_rpure {α : Type} (a : α) : Parses (rpure a) [] a := by
  intro pre rest
  simp [rpure]

theorem parses_rbind {α β : Type} {R : Reader α} {f : α → Reader β}
    {bs cs : List Nat} {a : α} {b : β}
    (h1 : Parses R bs a) (h2 : Parses (f a) cs b) :
    Parses (rbind R f) (bs ++ cs) b := by
  intro pre rest
  have e1 : pre ++ ((bs ++ cs) ++ rest) = pre ++ (bs ++ (cs ++ rest)) := by
    simp [List.append_assoc]
  rw [e1, rbind_ok (h1 pre (cs ++ rest))]
  have h2' := h2 (pre ++ bs) rest
  rw [List.append_assoc, List.length_append] at h2'
  rw [h2', List.length_append, Nat.add_assoc]

theorem parses_readBytesR {n : Nat} {bs : List Nat} (h : bs.length = n) :
    Parses (readBytesR n) bs bs := by
  intro pre rest
  unfold readBytesR
  rw [if_pos (by simp [List.length_append]; omega)]
  rw [List.drop_left, ← h, List.take_left]

theorem parses_readWord (n : Nat) (e : Endian) (x : Nat) :
    Parses (readWord n e) (wordBytes n e x) (x % 256 ^ n) := by
  intro pre rest
  unfold readWord
  rw [rbind_ok (parses_readBytesR (wordBytes_length n e x) pre rest)]
  simp [rpure, valWith_wordBytes, wordBytes_length]

theorem parses_word_of_lt {n : Nat} {e : Endian} {x : Nat} (h : x < 256 ^ n) :
    Parses (readWord n e) (wordBytes n e x) x := by
  have hp := parses_readWord n e x
  rwa [Nat.mod_eq_of_lt h] at hp

theorem parses_readN {α : Type} {R : Reader α} {g : α → List Nat} :
    ∀ (l : List α), (∀ v ∈ l, Parses R (g v) v) →
      Parses (readN R l.length) ((l.map g).flatten) l := by
  intro l
  induction l with
  | nil =>
    intro _
    simpa using parses_rpure ([] : List α)
  | cons v vs ih =>
    intro h
    have hv : Parses R (g v) v := h v (List.mem_cons_self v vs)
    have hrest : Parses (readN R vs.length) ((vs.map g).flatten) vs :=
      ih (fun w hw => h w (List.mem_cons_of_mem v hw))
    have tail : Parses (rbind (readN R vs.length) fun as => rpure (v :: as))
        ((vs.map g).flatten ++ []) (v :: vs) :=
      parses_rbind hrest (parses_rpure (v :: vs))
    have main : Parses (rbind R fun a => rbind (readN R vs.length) fun as =>
        rpure (a :: as)) (g v ++ ((vs.map g).flatten ++ [])) (v :: vs) :=
      parses_rbind hv tail
    simpa [readN] using main

theorem parses_voxel {e : Endian} {v : VoxelData} (hv : v.wf) :
    Parses (VoxelData.tryFromCtx e) (VoxelData.writeBytes e v) v := by
  obtain ⟨h1, h2, h3, h4, h5, h6, h7⟩ := hv
  have c8 : (256 : Nat) ^ 1 = 256 := by norm_num
  have c16 : (256 : Nat) ^ 2 = 65536 := by norm_num
  have pr : Parses (readWord 1 .be) (wordBytes 1 .be v.red) v.red :=
    parses_word_of_lt (by omega)
  have pg : Parses (readWord 1 e) (wordBytes 1 e v.green) v.green :=
    parses_word_of_lt (by omega)
  have pb : Parses (readWord 1 e) (wordBytes 1 e v.blue) v.blue :=
    parses_word_of_lt (by omega)
  have pd : Parses (readWord 1 e) (wordBytes 1 e v.dummy) v.dummy :=
    parses_word_of_lt (by omega)
  have ph : Parses (readWord 2 .le) (wordBytes 2 .le v.height) v.height :=
    parses_word_of_lt (by omega)
  have pv : Parses (readWord 1 e) (wordBytes 1 e v.visibility) v.visibility :=
    parses_word_of_lt (by omega)
  have pn : Parses (readWord 1 e) (wordBytes 1 e v.normalindex) v.normalindex :=
    parses_word_of_lt (by omega)
  rw [show VoxelData.writeBytes e v =
    wordBytes 1 .be v.red ++ (wordBytes 1 e v.green ++ (wordBytes 1 e v.blue ++
    (wordBytes 1 e v.dummy ++ (wordBytes 2 .le v.height ++
    (wordBytes 1 e v.visibility ++ (wordBytes 1 e v.normalindex ++ [])))))) from by
      simp [VoxelData.writeBytes]]
  exact parses_rbind pr (parses_rbind pg (parses_rbind pb (parses_rbind pd
    (parses_rbind ph (parses_rbind pv (parses_rbind pn (parses_rpure _)))))))

theorem parses_kv6 {e : Endian} {m : KV6Format} (hw : m.wf)
    (hx : m.xlen.length = m.x_size) :
    Parses (KV6Format.tryFromCtx e) (KV6Format.writeBytes e m) {m with ylen := []} := by
  obtain ⟨w1, w2, w3, w4, w5, w6, w7, w8, w9, w10⟩ := hw
  have c32 : (256 : Nat) ^ 4 = 4294967296 := by norm_num
  have pmagic : Parses (readWord 4 .be) (wordBytes 4 .be m.magic) m.magic :=
    parses_word_of_lt (by omega)
  have pxsize : Parses (readWord 4 e) (wordBytes 4 e m.x_size) m.x_size :=
    parses_word_of_lt (by omega)
  have pysize : Parses (readWord 4 e) (wordBytes 4 e m.y_size) m.y_size :=
    parses_word_of_lt (by omega)
  have pzsize : Parses (readWord 4 e) (wordBytes 4 e m.z_size) m.z_size :=
    parses_word_of_lt (by omega)
  have pxpivot : Parses (readWord 4 e) (wordBytes 4 e m.x_pivot) m.x_pivot :=
    parses_word_of_lt (by omega)
  have pypivot : Parses (readWord 4 e) (wordBytes 4 e m.y_pivot) m.y_pivot :=
    parses_word_of_lt (by omega)
  have pzpivot : Parses (readWord 4 e) (wordBytes 4 e m.z_pivot) m.z_pivot :=
    parses_word_of_lt (by omega)
  have pcount : Parses (readWord 4 e) (wordBytes 4 e m.voxels.length)
      m.voxels.length := parses_word_of_lt (by omega)
  have pvox : Parses (readN (VoxelData.tryFromCtx e) m.voxels.length)
      ((m.voxels.map (VoxelData.writeBytes e)).flatten) m.voxels :=
    parses_readN m.voxels (fun v hv => parses_voxel (w9 v hv))
  have pxlen : Parses (readN (readWord 4 e) m.x_size)
      ((m.xlen.map (wordBytes 4 e)).flatten) m.xlen := by
    rw [← hx]
    exact parses_readN m.xlen (fun x hxm =>
      parses_word_of_lt (by have := w10 x hxm; omega))
  rw [show KV6Format.writeBytes e m =
    wordBytes 4 .be m.magic ++ (wordBytes 4 e m.x_size ++ (wordBytes 4 e m.y_size ++
    (wordBytes 4 e m.z_size ++ (wordBytes 4 e m.x_pivot ++ (wordBytes 4 e m.y_pivot ++
    (wordBytes 4 e m.z_pivot ++ (wordBytes 4 e m.voxels.length ++
    ((m.voxels.map (VoxelData.writeBytes e)).flatten ++
    ((m.xlen.map (wordBytes 4 e)).flatten ++ []))))))))) from by
      simp [KV6Format.writeBytes]]
  exact parses_rbind pmagic (parses_rbind pxsize (parses_rbind pysize
    (parses_rbind pzsize (parses_rbind pxpivot (parses_rbind pypivot
    (parses_rbind pzpivot (parses_rbind pcount (parses_rbind pvox
    (parses_rbind pxlen (parses_rpure _))))))))))

/-! ## Length of the encodings -/

theorem voxel_writeBytes_length (e : Endian) (v : VoxelData) :
    (VoxelData.writeBytes e v).length = 8 := by
  simp [VoxelData.writeBytes, wordBytes_length]

theorem flatten_voxels_length (e : Endian) (l : List VoxelData) :
    ((l.map (VoxelData.writeBytes e)).flatten).length = 8 * l.length := by
  induction l with
  | nil => rfl
  | cons v vs ih =>
    simp only [List.map_cons, List.flatten_cons, List.length_append,
      voxel_writeBytes_length, ih, List.length_cons]
    ring

theorem flatten_xlen_length (e : Endian) (l : List Nat) :
    ((l.map (wordBytes 4 e)).flatten).length = 4 * l.length := by
  induction l with
  | nil => rfl
  | cons x xs ih =>
    simp only [List.map_cons, List.flatten_cons, List.length_append,
      wordBytes_length, ih, List.length_cons]
    ring

theorem kv6_writeBytes_length (e : Endian) (m : KV6Format) :
    (KV6Format.writeBytes e m).length =
      32 + 8 * m.voxels.length + 4 * m.xlen.length := by
  simp only [KV6Format.writeBytes, List.length_append, wordBytes_length,
    flatten_voxels_length, flatten_xlen_length]

/-! ## Totality of the voxel record decoder -/

theorem readVoxel_pos {e : Endian} {src : List Nat} {off : Nat}
    (h : off + 8 ≤ src.length) :
    VoxelData.tryFromCtx e src off = .ok
      (⟨valWith .be ((src.drop off).take 1),
        valWith e ((src.drop (off + 1)).take 1),
        valWith e ((src.drop (off + 1 + 1)).take 1),
        valWith e ((src.drop (off + 1 + 1 + 1)).take 1),
        valWith .le ((src.drop (off + 1 + 1 + 1 + 1)).take 2),
        valWith e ((src.drop (off + 1 + 1 + 1 + 1 + 2)).take 1),
        valWith e ((src.drop (off + 1 + 1 + 1 + 1 + 2 + 1)).take 1)⟩,
       off + 8) := by
  unfold VoxelData.tryFromCtx
  have s1 : off + 1 ≤ src.length := by omega
  rw [rbind_ok (readWord_pos s1)]
  have s2 : off + 1 + 1 ≤ src.length := by omega
  rw [rbind_ok (readWord_pos s2)]
  have s3 : off + 1 + 1 + 1 ≤ src.length := by omega
  rw [rbind_ok (readWord_pos s3)]
  have s4 : off + 1 + 1 + 1 + 1 ≤ src.length := by omega
  rw [rbind_ok (readWord_pos s4)]
  have s5 : off + 1 + 1 + 1 + 1 + 2 ≤ src.length := by omega
  rw [rbind_ok (readWord_pos s5)]
  have s6 : off + 1 + 1 + 1 + 1 + 2 + 1 ≤ src.length := by omega
  rw [rbind_ok (readWord_pos s6)]
  have s7 : off + 1 + 1 + 1 + 1 + 2 + 1 + 1 ≤ src.length := by omega
  rw [rbind_ok (readWord_pos s7)]
  rfl

theorem readVoxel_neg {e : Endian} {src : List Nat} {off : Nat}
    (h : src.length < off + 8) :
    VoxelData.tryFromCtx e src off = .error .truncatedInput := by
  unfold VoxelData.tryFromCtx
  by_cases h1 : off + 1 ≤ src.length
  case neg => rw [rbind_err (readWord_neg (by omega))]
  rw [rbind_ok (readWord_pos h1)]
  by_cases h2 : off + 1 + 1 ≤ src.length
  case neg => rw [rbind_err (readWord_neg (by omega))]
  rw [rbind_ok (readWord_pos h2)]
  by_cases h3 : off + 1 + 1 + 1 ≤ src.length
  case neg => rw [rbind_err (readWord_neg (by omega))]
  rw [rbind_ok (readWord_pos h3)]
  by_cases h4 : off + 1 + 1 + 1 + 1 ≤ src.length
  case neg => rw [rbind_err (readWord_neg (by omega))]
  rw [rbind_ok (readWord_pos h4)]
  by_cases h5 : off + 1 + 1 + 1 + 1 + 2 ≤ src.length
  case neg => rw [rbind_err (readWord_neg (by omega))]
  rw [rbind_ok (readWord_pos h5)]
  by_cases h6 : off + 1 + 1 + 1 + 1 + 2 + 1 ≤ src.length
  case neg => rw [rbind_err (readWord_neg (by omega))]
  rw [rbind_ok (readWord_pos h6)]
  rw [rbind_err (readWord_neg (by omega))]

/-- Inversion of a successful model decode: `ylen` is stubbed empty, `xlen`
has exactly `x_size` entries, the voxel count read at offset 28 equals the
number of decoded voxels, and the final cursor is
`32 + 8 * voxel_count + 4 * x_size` past the start. -/
theorem kv6_inv {e : Endian} {src : List Nat} {off : Nat} {m : KV6Format}
    {off1 : Nat} (h : KV6Format.tryFromCtx e src off = .ok (m, off1)) :
    m.ylen = [] ∧ m.xlen.length = m.x_size ∧
    readWord 4 e src (off + 28) = .ok (m.voxels.length, off + 32) ∧
    off1 = off + 32 + 8 * m.voxels.length + 4 * m.x_size := by
  unfold KV6Format.tryFromCtx at h
  cases hA : readWord 4 .be src off with
  | error eA => rw [rbind_err hA] at h; exact Except.noConfusion h
  | ok p1 =>
  obtain ⟨magic, o1⟩ := p1
  rw [rbind_ok hA] at h
  have a1 : o1 = off + 4 := adv_readWord 4 .be src off magic o1 hA
  cases hB : readWord 4 e src o1 with
  | error eB => rw [rbind_err hB] at h; exact Except.noConfusion h
  | ok p2 =>
  obtain ⟨xsz, o2⟩ := p2
  rw [rbind_ok hB] at h
  have a2 : o2 = o1 + 4 := adv_readWord 4 e src o1 xsz o2 hB
  cases hC : readWord 4 e src o2 with
  | error eC => rw [rbind_err hC] at h; exact Except.noConfusion h
  | ok p3 =>
  obtain ⟨ysz, o3⟩ := p3
  rw [rbind_ok hC] at h
  have a3 : o3 = o2 + 4 := adv_readWord 4 e src o2 ysz o3 hC
  cases hD : readWord 4 e src o3 with
  | error eD => rw [rbind_err hD] at h; exact Except.noConfusion h
  | ok p4 =>
  obtain ⟨zsz, o4⟩ := p4
  rw [rbind_ok hD] at h
  have a4 : o4 = o3 + 4 := adv_readWord 4 e src o3 zsz o4 hD
  cases hE : readWord 4 e src o4 with
  | error eE => rw [rbind_err hE] at h; exact Except.noConfusion h
  | ok p5 =>
  obtain ⟨xp, o5⟩ := p5
  rw [rbind_ok hE] at h
  have a5 : o5 = o4 + 4 := adv_readWord 4 e src o4 xp o5 hE
  cases hF : readWord 4 e src o5 with
  | error eF => rw [rbind_err hF] at h; exact Except.noConfusion h
  | ok p6 =>
  obtain ⟨yp, o6⟩ := p6
  rw [rbind_ok hF] at h
  have a6 : o6 = o5 + 4 := adv_readWord 4 e src o5 yp o6 hF
  cases hG : readWord 4 e src o6 with
  | error eG => rw [rbind_err hG] at h; exact Except.noConfusion h
  | ok p7 =>
  obtain ⟨zp, o7⟩ := p7
  rw [rbind_ok hG] at h
  have a7 : o7 = o6 + 4 := adv_readWord 4 e src o6 zp o7 hG
  cases hH : readWord 4 e src o7 with
  | error eH => rw [rbind_err hH] at h; exact Except.noConfusion h
  | ok p8 =>
  obtain ⟨cnt, o8⟩ := p8
  rw [rbind_ok hH] at h
  have a8 : o8 = o7 + 4 := adv_readWord 4 e src o7 cnt o8 hH
  cases hI : readN (VoxelData.tryFromCtx e) cnt src o8 with
  | error eI => rw [rbind_err hI] at h; exact Except.noConfusion h
  | ok p9 =>
  obtain ⟨vox, o9⟩ := p9
  rw [rbind_ok hI] at h
  obtain ⟨a9, l9⟩ := readN_ok_parts (adv_voxel e) cnt src o8 vox o9 hI
  cases hJ : readN (readWord 4 e) xsz src o9 with
  | error eJ => rw [rbind_err hJ] at h; exact Except.noConfusion h
  | ok p10 =>
  obtain ⟨xl, o10⟩ := p10
  rw [rbind_ok hJ] at h
  obtain ⟨a10, l10⟩ := readN_ok_parts (adv_readWord 4 e) xsz src o9 xl o10 hJ
  unfold rpure at h
  have hp := Except.ok.inj h
  have hm : m = ⟨magic, xsz, ysz, zsz, xp, yp, zp, vox, xl, []⟩ :=
    (congrArg Prod.fst hp).symm
  have ho : off1 = o10 := (congrArg Prod.snd hp).symm
  subst hm
  subst ho
  refine ⟨rfl, l10, ?_, ?_⟩
  · show readWord 4 e src (off + 28) = .ok (vox.length, off + 32)
    have e7 : off + 28 = o7 := by omega
    have e8 : off + 32 = o8 := by omega
    rw [l9, e7, e8]
    exact hH
  · show off1 = off + 32 + 8 * vox.length + 4 * xsz
    omega

/-- The 4-byte word at offset 28 of an encoded model — the written
`voxel_count` field — reads back as `voxels.len() as u32`, i.e. the list
length reduced modulo `2^32`. -/
theorem count_field_read (e : Endian) (m : KV6Format) :
    readWord 4 e (KV6Format.writeBytes e m) 28 =
      .ok (m.voxels.length % 4294967296, 32) := by
  have hp := parses_readWord 4 e m.voxels.length
    (wordBytes 4 .be m.magic ++ (wordBytes 4 e m.x_size ++ (wordBytes 4 e m.y_size ++
     (wordBytes 4 e m.z_size ++ (wordBytes 4 e m.x_pivot ++ (wordBytes 4 e m.y_pivot ++
      wordBytes 4 e m.z_pivot))))))
    ((m.voxels.map (VoxelData.writeBytes e)).flatten ++
     (m.xlen.map (wordBytes 4 e)).flatten)
  simp only [List.length_append, wordBytes_length] at hp
  rw [show KV6Format.writeBytes e m =
    wordBytes 4 .be m.magic ++ (wordBytes 4 e m.x_size ++ (wordBytes 4 e m.y_size ++
     (wordBytes 4 e m.z_size ++ (wordBytes 4 e m.x_pivot ++ (wordBytes 4 e m.y_pivot ++
      wordBytes 4 e m.z_pivot))))) ++
    (wordBytes 4 e m.voxels.length ++
     ((m.voxels.map (VoxelData.writeBytes e)).flatten ++
      (m.xlen.map (wordBytes 4 e)).flatten)) from by
        simp [KV6Format.writeBytes]]
  have c32 : (4294967296 : Nat) = 256 ^ 4 := by norm_num
  rw [c32]
  exact hp

/-- C1 (counterexample). The round-trip claim fails as stated: for the model
with `x_size = 1` and a fully populated `y_index` (`[[]]`, one inner sequence
of length `y_size = 0`), decoding its encoding yields a model whose `ylen` is
empty, not the original model. -/
theorem C1_roundtrip_counterexample :
    KV6Format.tryFromCtx .le
        (KV6Format.writeBytes .le ⟨0x4b76786c, 1, 0, 0, 0, 0, 0, [], [0], [[]]⟩) 0 =
      .ok (⟨0x4b76786c, 1, 0, 0, 0, 0, 0, [], [0], []⟩, 36) ∧
    decide ((⟨0x4b76786c, 1, 0, 0, 0, 0, 0, [], [0], []⟩ : KV6Format) =
      ⟨0x4b76786c, 1, 0, 0, 0, 0, 0, [], [0], [[]]⟩) = false := by
  exact ⟨rfl, rfl⟩

/-- C1 (amended). Round-trip identity up to the stubbed `y_index`: for every
well-formed model whose `x_index` has `size_x` entries, decoding the encoding
under the same endianness returns the model with `y_index` replaced by the
empty sequence (all other fields round-trip exactly), consuming the whole
buffer. Full identity therefore holds exactly for models with empty `ylen`. -/
theorem C1_roundtrip_amended (e : Endian) (m : KV6Format) (hw : m.wf)
    (hx : m.xlen.length = m.x_size) :
    KV6Format.tryFromCtx e (KV6Format.writeBytes e m) 0 =
      .ok ({m with ylen := []}, (KV6Format.writeBytes e m).length) := by
  have hp := parses_kv6 (e := e) hw hx [] []
  simpa using hp

/-- C1 (witness): the amended round-trip at a concrete nonempty model,
under both endianness contexts. -/
theorem C1_roundtrip_witness :
    (⟨0x4b76786c, 1, 2, 3, 1077936128, 0, 0, [⟨10, 20, 30, 128, 517, 63, 2⟩],
        [7], []⟩ : KV6Format).wf ∧
    (KV6Format.tryFromCtx .be (KV6Format.writeBytes .be
        ⟨0x4b76786c, 1, 2, 3, 1077936128, 0, 0, [⟨10, 20, 30, 128, 517, 63, 2⟩],
          [7], []⟩) 0 =
      .ok (⟨0x4b76786c, 1, 2, 3, 1077936128, 0, 0, [⟨10, 20, 30, 128, 517, 63, 2⟩],
          [7], []⟩, 44)) ∧
    (KV6Format.tryFromCtx .le (KV6Format.writeBytes .le
        ⟨0x4b76786c, 1, 2, 3, 1077936128, 0, 0, [⟨10, 20, 30, 128, 517, 63, 2⟩],
          [7], []⟩) 0 =
      .ok (⟨0x4b76786c, 1, 2, 3, 1077936128, 0, 0, [⟨10, 20, 30, 128, 517, 63, 2⟩],
          [7], []⟩, 44)) := by
  refine ⟨by decide, ?_, ?_⟩
  · exact C1_roundtrip_amended .be _ (by decide) (by decide)
  · exact C1_roundtrip_amended .le _ (by decide) (by decide)

/-- C2. Truncation safety: if a buffer decodes successfully with the cursor
consuming the whole buffer, then every strict prefix fails to decode with
`truncatedInput` (and, the decoder being a total function, it cannot panic or
read out of bounds). -/
theorem C2_truncation_safety (e : Endian) (src : List Nat) (m : KV6Format)
    (k : Nat) (hdec : KV6Format.tryFromCtx e src 0 = .ok (m, src.length))
    (hk : k < src.length) :
    KV6Format.tryFromCtx e (src.take k) 0 = .error .truncatedInput := by
  obtain ⟨hle, hcl⟩ := trunc_kv6 e src 0 m src.length hdec
  exact (hcl k (Nat.zero_le k)).1 hk

/-- C2 (witness): a 32-byte all-zero buffer decodes exactly, and its 31-byte
prefix fails with `truncatedInput`. -/
theorem C2_truncation_witness :
    KV6Format.tryFromCtx .le (List.replicate 32 0) 0 =
      .ok (⟨0, 0, 0, 0, 0, 0, 0, [], [], []⟩, (List.replicate 32 0).length) ∧
    31 < (List.replicate 32 0).length ∧
    KV6Format.tryFromCtx .le ((List.replicate 32 0).take 31) 0 =
      .error .truncatedInput := by
  refine ⟨by rfl, by decide, ?_⟩
  exact C2_truncation_safety .le (List.replicate 32 0) ⟨0, 0, 0, 0, 0, 0, 0, [], [], []⟩
    31 (by rfl) (by decide)

/-- C3 (counterexample). The `y_index` length invariant fails as stated: a
36-byte buffer declaring `x_size = 1` decodes successfully, but the decoded
`ylen` is empty, so its length `0` differs from `x_size = 1`. -/
theorem C3_index_lengths_counterexample :
    KV6Format.tryFromCtx .le ([75, 118, 120, 108, 1, 0, 0, 0] ++
        List.replicate 28 0) 0 =
      .ok (⟨0x4b76786c, 1, 0, 0, 0, 0, 0, [], [0], []⟩, 36) ∧
    decide ((⟨0x4b76786c, 1, 0, 0, 0, 0, 0, [], [0], []⟩ : KV6Format).ylen.length =
      (⟨0x4b76786c, 1, 0, 0, 0, 0, 0, [], [0], []⟩ : KV6Format).x_size) = false := by
  exact ⟨rfl, rfl⟩

/-- C3 (amended). After every successful decode, `x_index` has exactly
`size_x` entries; `y_index` however is always the empty sequence (the decoder
stubs it), so its length equals `size_x` only when `size_x = 0`. -/
theorem C3_index_lengths_amended (e : Endian) (src : List Nat) (off : Nat)
    (m : KV6Format) (off1 : Nat)
    (h : KV6Format.tryFromCtx e src off = .ok (m, off1)) :
    m.xlen.length = m.x_size ∧ m.ylen = [] := by
  obtain ⟨h1, h2, _, _⟩ := kv6_inv h
  exact ⟨h2, h1⟩

/-- C3 (witness): the index-length facts at a concrete successful decode. -/
theorem C3_index_lengths_witness :
    KV6Format.tryFromCtx .le (List.replicate 32 0) 0 =
      .ok (⟨0, 0, 0, 0, 0, 0, 0, [], [], []⟩, 32) ∧
    (⟨0, 0, 0, 0, 0, 0, 0, [], [], []⟩ : KV6Format).xlen.length =
      (⟨0, 0, 0, 0, 0, 0, 0, [], [], []⟩ : KV6Format).x_size ∧
    (⟨0, 0, 0, 0, 0, 0, 0, [], [], []⟩ : KV6Format).ylen = [] := by
  have hp := C3_index_lengths_amended .le (List.replicate 32 0) 0
    ⟨0, 0, 0, 0, 0, 0, 0, [], [], []⟩ 32 (by rfl)
  exact ⟨by rfl, hp.1, hp.2⟩

/-- C4 (counterexample). "The written count always equals the number of voxel
records written" fails: for a model with `2^32` voxel records, encode writes
all `2^32` records but the `voxel_count` field (written through the `as u32`
cast) reads back as `0`. -/
theorem C4_count_consistency_counterexample :
    readWord 4 .le (KV6Format.writeBytes .le
        ⟨0, 0, 0, 0, 0, 0, 0,
          List.replicate 4294967296 ⟨0, 0, 0, 0, 0, 0, 0⟩, [], []⟩) 28 =
      .ok (0, 32) ∧
    (⟨0, 0, 0, 0, 0, 0, 0,
        List.replicate 4294967296 ⟨0, 0, 0, 0, 0, 0, 0⟩, [], []⟩ :
      KV6Format).voxels.length = 4294967296 ∧
    decide ((0 : Nat) = 4294967296) = false := by
  have hlen : (⟨0, 0, 0, 0, 0, 0, 0,
      List.replicate 4294967296 ⟨0, 0, 0, 0, 0, 0, 0⟩, [], []⟩ :
        KV6Format).voxels.length = 4294967296 :=
    @List.length_replicate VoxelData 4294967296 ⟨0, 0, 0, 0, 0, 0, 0⟩
  refine ⟨?_, hlen, by rfl⟩
  have hc := count_field_read .le
    ⟨0, 0, 0, 0, 0, 0, 0, List.replicate 4294967296 ⟨0, 0, 0, 0, 0, 0, 0⟩, [], []⟩
  rw [hlen, Nat.mod_self] at hc
  exact hc

/-- C4 (amended). Count consistency up to the `u32` cast: after every
successful decode the voxel list length equals the `voxel_count` word read at
offset 28 of the stream; and encode recomputes the written `voxel_count`
field from `voxels.length()` (not from a stored count), so the written field
equals the list length whenever that length fits in `u32` (the `as u32` cast
wraps modulo `2^32` otherwise). -/
theorem C4_count_consistency_amended (e : Endian) :
    (∀ (src : List Nat) (off : Nat) (m : KV6Format) (off1 : Nat),
      KV6Format.tryFromCtx e src off = .ok (m, off1) →
      readWord 4 e src (off + 28) = .ok (m.voxels.length, off + 32)) ∧
    (∀ m : KV6Format, m.voxels.length < 4294967296 →
      readWord 4 e (KV6Format.writeBytes e m) 28 = .ok (m.voxels.length, 32)) := by
  constructor
  · intro src off m off1 h
    exact (kv6_inv h).2.2.1
  · intro m hlt
    have hc := count_field_read e m
    rwa [Nat.mod_eq_of_lt hlt] at hc

/-- C4 (witness): the amended count consistency at a concrete decode (32-byte
zero buffer, count 0) and a concrete encode (one-voxel model, count 1). -/
theorem C4_count_consistency_witness :
    readWord 4 .le (List.replicate 32 0) (0 + 28) =
      .ok ((⟨0, 0, 0, 0, 0, 0, 0, [], [], []⟩ : KV6Format).voxels.length, 0 + 32) ∧
    readWord 4 .le (KV6Format.writeBytes .le
        ⟨0, 0, 0, 0, 0, 0, 0, [⟨1, 2, 3, 128, 7, 0, 0⟩], [], []⟩) 28 =
      .ok ((⟨0, 0, 0, 0, 0, 0, 0, [⟨1, 2, 3, 128, 7, 0, 0⟩], [], []⟩ :
        KV6Format).voxels.length, 32) := by
  constructor
  · exact (C4_count_consistency_amended .le).1 (List.replicate 32 0) 0
      ⟨0, 0, 0, 0, 0, 0, 0, [], [], []⟩ 32 (by rfl)
  · exact (C4_count_consistency_amended .le).2
      ⟨0, 0, 0, 0, 0, 0, 0, [⟨1, 2, 3, 128, 7, 0, 0⟩], [], []⟩ (by decide)

/-- C5 (counterexample). The `ArithmeticOverflow` clause fails: a 32-byte
buffer whose `voxel_count` field declares 5 voxels (needing 40 bytes beyond
offset 32, more than the 0 remaining) fails with `truncatedInput`, not
`arithmeticOverflow`. -/
theorem C5_error_kinds_counterexample :
    KV6Format.tryFromCtx .le (List.replicate 28 0 ++ [5, 0, 0, 0]) 0 =
      .error .truncatedInput ∧
    readWord 4 .le (List.replicate 28 0 ++ [5, 0, 0, 0]) 28 = .ok (5, 32) ∧
    (List.replicate 28 0 ++ [5, 0, 0, 0]).length = 32 ∧
    decide (ScrollError.truncatedInput = ScrollError.arithmeticOverflow) = false := by
  exact ⟨rfl, rfl, rfl, rfl⟩

/-- C5 (amended). Model decode either succeeds or fails with
`truncatedInput`; this covers buffer exhaustion inside any field, and is also
what happens when a declared `voxel_count`/`size_x` times its element width
exceeds the remaining buffer — `arithmeticOverflow` is never produced (the
sequential element reads hit the end of the buffer first). -/
theorem C5_error_kinds_amended (e : Endian) (src : List Nat) (off : Nat) :
    (∃ r, KV6Format.tryFromCtx e src off = .ok r) ∨
    KV6Format.tryFromCtx e src off = .error .truncatedInput := by
  cases hr : KV6Format.tryFromCtx e src off with
  | ok r => exact Or.inl ⟨r, rfl⟩
  | error err =>
    cases err with
    | truncatedInput => exact Or.inr rfl
    | arithmeticOverflow => exact absurd hr (noov_kv6 e src off)

/-- C6. Voxel record codec contract: decode fails with `truncatedInput`
exactly when fewer than 8 bytes remain, otherwise succeeds consuming exactly
8 bytes; encode always produces exactly 8 bytes for any record (no semantic
validation, e.g. of the `reserved`/`dummy` byte). -/
theorem C6_voxel_codec_contract (e : Endian) (src : List Nat) (off : Nat)
    (v : VoxelData) :
    ((VoxelData.tryFromCtx e src off = .error .truncatedInput ∧
        src.length < off + 8) ∨
      (∃ w, VoxelData.tryFromCtx e src off = .ok (w, off + 8) ∧
        off + 8 ≤ src.length)) ∧
    (VoxelData.writeBytes e v).length = 8 := by
  refine ⟨?_, voxel_writeBytes_length e v⟩
  by_cases hl : off + 8 ≤ src.length
  · exact Or.inr ⟨_, readVoxel_pos hl, hl⟩
  · exact Or.inl ⟨readVoxel_neg (by omega), by omega⟩

/-- C7. Encoded size: for every model whose `x_index` has `size_x` entries
(the data-model invariant), the encoding is exactly fixed header (32 bytes)
plus 8 bytes per voxel plus 4 bytes per `x_index` entry; the nested `y_index`
table is not written (unimplemented in the source). -/
theorem C7_encode_length (e : Endian) (m : KV6Format)
    (hx : m.xlen.length = m.x_size) :
    (KV6Format.writeBytes e m).length =
      32 + 8 * m.voxels.length + 4 * m.x_size := by
  rw [kv6_writeBytes_length, hx]

/-- C7 (witness): the encoded-size formula at a concrete model with one voxel
and two `x_index` entries. -/
theorem C7_encode_length_witness :
    (⟨9, 2, 0, 0, 0, 0, 0, [⟨1, 2, 3, 128, 7, 0, 0⟩], [3, 4], []⟩ :
      KV6Format).xlen.length =
      (⟨9, 2, 0, 0, 0, 0, 0, [⟨1, 2, 3, 128, 7, 0, 0⟩], [3, 4], []⟩ :
        KV6Format).x_size ∧
    (KV6Format.writeBytes .le
        ⟨9, 2, 0, 0, 0, 0, 0, [⟨1, 2, 3, 128, 7, 0, 0⟩], [3, 4], []⟩).length =
      32 + 8 * (⟨9, 2, 0, 0, 0, 0, 0, [⟨1, 2, 3, 128, 7, 0, 0⟩], [3, 4], []⟩ :
          KV6Format).voxels.length +
        4 * (⟨9, 2, 0, 0, 0, 0, 0, [⟨1, 2, 3, 128, 7, 0, 0⟩], [3, 4], []⟩ :
          KV6Format).x_size := by
  exact ⟨by decide, C7_encode_length .le _ (by decide)⟩

/-- C8. Encode never fails in the value domain: for every model and
endianness, writing into a destination buffer of the exact encoded size
succeeds, returning the number of bytes written. -/
theorem C8_encode_total (e : Endian) (m : KV6Format) :
    KV6Format.tryIntoCtx e m (32 + 8 * m.voxels.length + 4 * m.xlen.length) =
      .ok (32 + 8 * m.voxels.length + 4 * m.xlen.length) := by
  unfold KV6Format.tryIntoCtx
  rw [kv6_writeBytes_length]
  rw [if_pos (Nat.le_refl _)]

theorem valWith_small (e1 e2 : Endian) (bs : List Nat) (h : bs.length ≤ 1) :
    valWith e1 bs = valWith e2 bs := by
  cases bs with
  | nil => cases e1 <;> cases e2 <;> rfl
  | cons b tl =>
    cases tl with
    | nil => cases e1 <;> cases e2 <;> simp [valWith, bytesToNatLE]
    | cons c tl2 => simp at h

theorem readWord_one_endian (e1 e2 : Endian) : readWord 1 e1 = readWord 1 e2 := by
  funext src off
  by_cases hc : off + 1 ≤ src.length
  · rw [readWord_pos (e := e1) hc, readWord_pos (e := e2) hc]
    rw [valWith_small e1 e2 ((src.drop off).take 1)
      (by simp [List.length_take])]
  · rw [readWord_neg (e := e1) (by omega), readWord_neg (e := e2) (by omega)]

/-- C9. The voxel record codec is endianness-invariant: decoding any buffer
at any offset gives identical results under any two endianness contexts, and
encoding any record gives identical bytes — every context-sensitive field is
a single byte, `height` is always little-endian and `red` always big-endian. -/
theorem C9_voxel_endian_invariance (e1 e2 : Endian) (src : List Nat)
    (off : Nat) (v : VoxelData) :
    VoxelData.tryFromCtx e1 src off = VoxelData.tryFromCtx e2 src off ∧
    VoxelData.writeBytes e1 v = VoxelData.writeBytes e2 v := by
  constructor
  · unfold VoxelData.tryFromCtx
    rw [readWord_one_endian e1 e2]
  · simp [VoxelData.writeBytes, wordBytes_one]

/-- C10. Shape of every successful model decode: the returned `ylen` is empty
regardless of the input bytes, the consumed size is exactly
`32 + 8 * voxel_count + 4 * size_x`, and bytes past that offset are never
read — appending arbitrary trailing content leaves the result unchanged. -/
theorem C10_decode_shape (e : Endian) (src : List Nat) (m : KV6Format)
    (n : Nat) (h : KV6Format.tryFromCtx e src 0 = .ok (m, n)) :
    m.ylen = [] ∧ n = 32 + 8 * m.voxels.length + 4 * m.x_size ∧
    ∀ extra, KV6Format.tryFromCtx e (src ++ extra) 0 = .ok (m, n) := by
  obtain ⟨h1, _, _, h4⟩ := kv6_inv h
  refine ⟨h1, by omega, ?_⟩
  intro extra
  apply grow_kv6 e (src ++ extra) src.length 0 m n
  rw [List.take_left]
  exact h

/-- C10 (witness): the decode-shape facts at a concrete buffer, including
stability under a trailing junk byte. -/
theorem C10_decode_shape_witness :
    KV6Format.tryFromCtx .le (List.replicate 32 0) 0 =
      .ok (⟨0, 0, 0, 0, 0, 0, 0, [], [], []⟩, 32) ∧
    (⟨0, 0, 0, 0, 0, 0, 0, [], [], []⟩ : KV6Format).ylen = [] ∧
    32 = 32 + 8 * (⟨0, 0, 0, 0, 0, 0, 0, [], [], []⟩ : KV6Format).voxels.length +
      4 * (⟨0, 0, 0, 0, 0, 0, 0, [], [], []⟩ : KV6Format).x_size ∧
    KV6Format.tryFromCtx .le (List.replicate 32 0 ++ [9]) 0 =
      .ok (⟨0, 0, 0, 0, 0, 0, 0, [], [], []⟩, 32) := by
  have hp := C10_decode_shape .le (List.replicate 32 0)
    ⟨0, 0, 0, 0, 0, 0, 0, [], [], []⟩ 32 (by rfl)
  exact ⟨by rfl, hp.1, hp.2.1, hp.2.2 [9]⟩
